import Mathlib

/-!
Verification of the workbook record store, schema migration, FX-rate cache and
currency conversion implemented in app.py of the amt-procurement repository.

The Python code is shallowly embedded: worksheet cell values become an
inductive Value type (the claims only involve None, int and str cells),
worksheets become a header row plus a list of data rows, workbooks become
association lists of named sheets, Python dicts become association lists, and
the module-level FX cache becomes explicit state passed in and out.  Machine
floats are modelled as rationals (the claims are about exact data flow, not
rounding).  Each claim of the specification is settled by a theorem below.
-/

set_option autoImplicit false

namespace AmtProcurement

/-- Cell values of the workbook model: Python None, int or str.  The claims
under verification only ever exercise these three kinds of cell values. -/
inductive Value where
  | none
  | int (n : ℤ)
  | str (s : String)
deriving DecidableEq

/-- Python truthiness for the modelled values: None, 0 and the empty string
are falsy, everything else is truthy. -/
def pyTruthy : Value → Bool
  | Value.none => false
  | Value.int n => n != 0
  | Value.str s => s != ""

/-- Python equality between modelled values: ints compare numerically,
strings compare as strings, values of different kinds are unequal
(in Python, 5 == "5" is False). -/
def pyEq : Value → Value → Bool
  | Value.none, Value.none => true
  | Value.int n, Value.int m => n == m
  | Value.str s, Value.str t => s == t
  | _, _ => false

/-- Decimal digit list of a natural number (most significant first), with
explicit fuel so that it is structurally recursive and kernel-reducible.
The fuel n + 1 always suffices since the number loses a digit per step. -/
def natDigitsAux : ℕ → ℕ → List Char
  | 0, _ => []
  | fuel + 1, n =>
    if n < 10 then [Char.ofNat (48 + n)]
    else natDigitsAux fuel (n / 10) ++ [Char.ofNat (48 + n % 10)]

/-- Decimal representation of a natural number, modelling Python str(). -/
def natRepr (n : ℕ) : String := (natDigitsAux (n + 1) n).asString

/-- Decimal representation of an integer, modelling Python str() on int. -/
def intRepr (n : ℤ) : String :=
  if n < 0 then "-" ++ natRepr n.natAbs else natRepr n.toNat

/-- Python str() of a modelled value. -/
def pyStr : Value → String
  | Value.none => "None"
  | Value.int n => intRepr n
  | Value.str s => s

/-- Python x or y for modelled values. -/
def pyOr (a b : Value) : Value := if pyTruthy a then a else b

/-- Python str.isdigit (restricted to the ASCII digits that appear in the
modelled data): true iff the string is nonempty and all characters are
decimal digits.  Stated on the character list of the string so that it is
kernel-reducible. -/
def pyIsDigit (s : String) : Bool := !s.data.isEmpty && s.data.all Char.isDigit

/-- Decimal value of a digit string, used to model Python int() on strings
that passed the isdigit filter of next-id. -/
def digitsToNat (s : String) : ℕ := s.data.foldl (fun n c => n * 10 + (c.toNat - 48)) 0

/-- Python int() applied to the values that reach it in next-id: an int is
itself, a digit string is its decimal value. -/
def pyToInt : Value → ℤ
  | Value.none => 0
  | Value.int n => n
  | Value.str s => (digitsToNat s : ℤ)

/-- A record as produced by sheet-rows: the dict zip(headers, vals), modelled
as an association list from header cell value to cell value. -/
abbrev Record := List (Value × Value)

/-- Python r.get(k) with default None on a record (dict lookup). -/
def dictGet (r : Record) (k : Value) : Value :=
  match r.find? (fun p => pyEq p.fst k) with
  | Option.none => Value.none
  | some p => p.snd

/-- The code's next-id over the record list of a sheet, translated from the
source: ids is the list int(r.get("id") or 0) over the rows r for which
str(r.get("id") or "").isdigit() holds, and the result is max(ids) + 1 when
ids is nonempty, else 1. -/
def nextId (rows : List Record) : ℤ :=
  let ids : List ℤ :=
    (rows.filter
      (fun r => pyIsDigit (pyStr (pyOr (dictGet r (Value.str "id")) (Value.str ""))))).map
      (fun r => pyToInt (pyOr (dictGet r (Value.str "id")) (Value.int 0)))
  match ids with
  | [] => 1
  | x :: xs => xs.foldl max x + 1

/-- Spec-side rendering of a numeric id value, following the claim's words:
a row has a numeric id when its id cell holds an integer, or a digit string
denoting one. -/
def claimNumericId : Value → Option ℤ
  | Value.int n => some n
  | Value.str s => if pyIsDigit s then some ((digitsToNat s : ℕ) : ℤ) else Option.none
  | Value.none => Option.none

/-- Spec-side list of the numeric id values of a table's rows. -/
def claimIds (rows : List Record) : List ℤ :=
  rows.filterMap (fun r => claimNumericId (dictGet r (Value.str "id")))

/-- Maximum of a list of integers with default 0 on the empty list. -/
def listMax0 (l : List ℤ) : ℤ := l.foldl max 0

/-- The per-row id contribution actually used by the code's next-id, as an
optional integer: present iff the row passes the isdigit filter. -/
def codeId (v : Value) : Option ℤ :=
  if pyIsDigit (pyStr (pyOr v (Value.str ""))) then some (pyToInt (pyOr v (Value.int 0)))
  else Option.none

theorem filter_map_eq_filterMap {α β : Type} (p : α → Bool) (f : α → β) (l : List α) :
    (l.filter p).map f = l.filterMap (fun a => if p a then some (f a) else Option.none) := by
  induction l with
  | nil => rfl
  | cons x xs ih =>
    by_cases h : p x = true
    · simp [List.filter, List.filterMap, h, ih]
    · simp only [Bool.not_eq_true] at h
      simp [List.filter, List.filterMap, h, ih]

/-- Max of a nonempty integer list plus one, 1 on the empty list: the final
step of the code's next-id. -/
def maxPlusOne (l : List ℤ) : ℤ :=
  match l with
  | [] => 1
  | x :: xs => xs.foldl max x + 1

theorem nextId_eq_codeIds (rows : List Record) :
    nextId rows = maxPlusOne (rows.filterMap (fun r => codeId (dictGet r (Value.str "id")))) := by
  unfold nextId maxPlusOne codeId
  rw [filter_map_eq_filterMap]

theorem char_ofNat_digit_isDigit (k : ℕ) (h : k < 10) :
    Char.isDigit (Char.ofNat (48 + k)) = true := by
  interval_cases k <;> decide

theorem natDigitsAux_all_digit (fuel n : ℕ) :
    (natDigitsAux fuel n).all Char.isDigit = true := by
  induction fuel generalizing n with
  | zero => rfl
  | succ fuel ih =>
    unfold natDigitsAux
    by_cases h : n < 10
    · simp [h, char_ofNat_digit_isDigit n h]
    · have h10 : n % 10 < 10 := Nat.mod_lt n (by omega)
      simp [h, ih (n / 10), char_ofNat_digit_isDigit (n % 10) h10]

theorem natDigitsAux_ne_nil (fuel n : ℕ) (h : 0 < fuel) : natDigitsAux fuel n ≠ [] := by
  cases fuel with
  | zero => omega
  | succ fuel =>
    unfold natDigitsAux
    by_cases h10 : n < 10
    · simp [h10]
    · simp [h10]

theorem pyIsDigit_natRepr (n : ℕ) : pyIsDigit (natRepr n) = true := by
  unfold pyIsDigit natRepr
  have hne : natDigitsAux (n + 1) n ≠ [] := natDigitsAux_ne_nil (n + 1) n (by omega)
  have hall : (natDigitsAux (n + 1) n).all Char.isDigit = true := natDigitsAux_all_digit (n + 1) n
  rw [show ((natDigitsAux (n + 1) n).asString.data : List Char) =
      natDigitsAux (n + 1) n from List.toList_asString _]
  rw [Bool.and_eq_true]
  constructor
  · rw [Bool.not_eq_true']
    rwa [List.isEmpty_eq_false]
  · exact hall

theorem pyIsDigit_intRepr_pos (n : ℤ) (h : 0 < n) : pyIsDigit (intRepr n) = true := by
  unfold intRepr
  rw [if_neg (by omega)]
  exact pyIsDigit_natRepr n.toNat

theorem pyIsDigit_intRepr_neg (n : ℤ) (h : n < 0) : pyIsDigit (intRepr n) = false := by
  unfold intRepr
  rw [if_pos h]
  unfold pyIsDigit
  have hdata : ("-" ++ natRepr n.natAbs).data = '-' :: (natRepr n.natAbs).data := by
    rw [String.data_append]
    rfl
  rw [hdata]
  simp [List.all_cons]

theorem pyIsDigit_empty : pyIsDigit "" = false := by decide

theorem codeId_int (n : ℤ) : codeId (Value.int n) = if 0 < n then some n else Option.none := by
  unfold codeId
  rcases lt_trichotomy n 0 with h | h | h
  · rw [show pyOr (Value.int n) (Value.str "") = Value.int n from by
      unfold pyOr pyTruthy
      rw [if_pos (by simp only [bne_iff_ne, ne_eq]; omega)]]
    rw [show pyStr (Value.int n) = intRepr n from rfl]
    rw [pyIsDigit_intRepr_neg n h]
    rw [if_neg (by simp), if_neg (by omega)]
  · subst h
    rw [show pyOr (Value.int 0) (Value.str "") = Value.str "" from by
      unfold pyOr pyTruthy
      rw [if_neg (by simp)]]
    rw [show pyStr (Value.str "") = "" from rfl]
    rw [pyIsDigit_empty]
    rw [if_neg (by simp), if_neg (by omega)]
  · rw [show pyOr (Value.int n) (Value.str "") = Value.int n from by
      unfold pyOr pyTruthy
      rw [if_pos (by simp only [bne_iff_ne, ne_eq]; omega)]]
    rw [show pyStr (Value.int n) = intRepr n from rfl]
    rw [pyIsDigit_intRepr_pos n h]
    rw [show pyOr (Value.int n) (Value.int 0) = Value.int n from by
      unfold pyOr pyTruthy
      rw [if_pos (by simp only [bne_iff_ne, ne_eq]; omega)]]
    rw [if_pos rfl, if_pos h]
    rfl

theorem claimNumericId_str (s : String) :
    claimNumericId (Value.str s) =
      if pyIsDigit s = true then some ((digitsToNat s : ℕ) : ℤ) else Option.none := rfl

theorem codeId_str (s : String) : codeId (Value.str s) = claimNumericId (Value.str s) := by
  unfold codeId
  rw [claimNumericId_str]
  have hor : pyOr (Value.str s) (Value.str "") = Value.str s := by
    unfold pyOr pyTruthy
    by_cases h : s = ""
    · subst h
      rw [if_neg (by simp)]
    · rw [if_pos (by simp [h])]
  rw [hor]
  rw [show pyStr (Value.str s) = s from rfl]
  by_cases h : pyIsDigit s = true
  · have hne : s ≠ "" := by
      intro hcontra
      subst hcontra
      rw [pyIsDigit_empty] at h
      exact absurd h (by simp)
    rw [if_pos h, if_pos h]
    rw [show pyOr (Value.str s) (Value.int 0) = Value.str s from by
      unfold pyOr pyTruthy
      rw [if_pos (by simp [hne])]]
    rfl
  · rw [if_neg h, if_neg h]

theorem codeId_none : codeId Value.none = Option.none := by
  unfold codeId
  rw [show pyOr Value.none (Value.str "") = Value.str "" from rfl]
  rw [show pyStr (Value.str "") = "" from rfl]
  rw [pyIsDigit_empty]
  rw [if_neg (by simp)]

theorem codeId_sound (v : Value) (n : ℤ) (h : codeId v = some n) :
    claimNumericId v = some n ∧ 0 ≤ n := by
  cases v with
  | none => rw [codeId_none] at h; exact absurd h (by simp)
  | int m =>
    rw [codeId_int] at h
    by_cases hm : 0 < m
    · rw [if_pos hm] at h
      injection h with h
      subst h
      exact ⟨rfl, hm.le⟩
    · rw [if_neg hm] at h
      exact absurd h (by simp)
  | str s =>
    rw [codeId_str] at h
    refine ⟨h, ?_⟩
    rw [claimNumericId_str] at h
    by_cases hd : pyIsDigit s = true
    · rw [if_pos hd] at h
      injection h with h
      subst h
      exact Int.ofNat_nonneg _
    · rw [if_neg hd] at h
      exact absurd h (by simp)

theorem codeId_none_claim (v : Value) (n : ℤ) (hc : codeId v = Option.none)
    (h : claimNumericId v = some n) : n ≤ 0 := by
  cases v with
  | none => exact absurd h (by simp [claimNumericId])
  | int m =>
    rw [codeId_int] at hc
    by_cases hm : 0 < m
    · rw [if_pos hm] at hc; exact absurd hc (by simp)
    · rw [show claimNumericId (Value.int m) = some m from rfl] at h
      injection h with h
      subst h
      omega
  | str s =>
    rw [codeId_str] at hc
    rw [hc] at h
    exact absurd h (by simp)

theorem foldl_max_claim_code (rows : List Record) : ∀ (a : ℤ), 0 ≤ a →
    (claimIds rows).foldl max a =
      (rows.filterMap (fun r => codeId (dictGet r (Value.str "id")))).foldl max a := by
  induction rows with
  | nil => intro a _; rfl
  | cons r rest ih =>
    intro a ha
    unfold claimIds
    rw [List.filterMap_cons, List.filterMap_cons]
    rcases hcode : codeId (dictGet r (Value.str "id")) with _ | n
    · rcases hclaim : claimNumericId (dictGet r (Value.str "id")) with _ | m
      · exact ih a ha
      · have hm : m ≤ 0 := codeId_none_claim _ m hcode hclaim
        rw [List.foldl_cons]
        rw [show max a m = a from by omega]
        exact ih a ha
    · obtain ⟨hclaim, hn⟩ := codeId_sound _ n hcode
      rw [hclaim]
      rw [List.foldl_cons, List.foldl_cons]
      exact ih (max a n) (le_trans ha (le_max_left a n))

theorem codeIds_nonneg (rows : List Record) :
    ∀ x ∈ rows.filterMap (fun r => codeId (dictGet r (Value.str "id"))), 0 ≤ x := by
  intro x hx
  rw [List.mem_filterMap] at hx
  obtain ⟨r, _, hr⟩ := hx
  exact (codeId_sound _ x hr).2

theorem match_max_eq (l : List ℤ) (h : ∀ x ∈ l, 0 ≤ x) :
    maxPlusOne l = 1 + l.foldl max 0 := by
  cases l with
  | nil => rfl
  | cons x xs =>
    show xs.foldl max x + 1 = 1 + (x :: xs).foldl max 0
    rw [List.foldl_cons]
    rw [show max 0 x = x from by
      have := h x (List.mem_cons_self x xs)
      omega]
    omega

theorem nextId_eq_spec (rows : List Record) : nextId rows = 1 + listMax0 (claimIds rows) := by
  rw [nextId_eq_codeIds, match_max_eq _ (codeIds_nonneg rows)]
  unfold listMax0
  rw [foldl_max_claim_code rows 0 le_rfl]

/-- Claim C2: for every table, next-id returns 1 plus the maximum of the
existing numeric id values of the table's rows, and (second conjunct) returns
1 when the table has no rows with numeric ids.  nextId is the code's
computation, claimIds/listMax0 the claim's reading of "max of existing
numeric ids, default 0". -/
theorem C2_nextId_formula (rows : List Record) :
    nextId rows = 1 + listMax0 (claimIds rows) ∧ (claimIds rows = [] → nextId rows = 1) := by
  refine ⟨nextId_eq_spec rows, fun h => ?_⟩
  rw [nextId_eq_spec rows, h]
  rfl

/-- Witness for C2 at a concrete table: two rows with ids 1 and 4 give
next id 5, and the empty table gives next id 1. -/
theorem C2_nextId_formula_witness : nextId ([] : List Record) = 1 :=
  (C2_nextId_formula []).2 rfl

/-- A worksheet: the header row (row 1) and the data rows (rows 2 onward). -/
structure Sheet where
  header : List Value
  rows : List (List Value)
deriving DecidableEq

/-- Reading cell c (0-based) of a row: openpyxl yields None for a cell that
was never written. -/
def getCell (row : List Value) (c : ℕ) : Value := row.getD c Value.none

/-- Writing cell c (0-based) of a row, padding with None first, as writing a
cell beyond the current extent does in openpyxl. -/
def setCellInRow (row : List Value) (c : ℕ) (v : Value) : List Value :=
  (row ++ List.replicate (c + 1 - row.length) Value.none).set c v

/-- First index of a value in a list under Python equality, carrying the
running index. -/
def idxOfAux (l : List Value) (v : Value) (i : ℕ) : Option ℕ :=
  match l with
  | [] => Option.none
  | x :: xs => if pyEq x v then some i else idxOfAux xs v (i + 1)

/-- headers.index(key) of the Python code: the first index whose cell equals
the key under Python equality, None when absent (the caught ValueError). -/
def idxOf (l : List Value) (v : Value) : Option ℕ := idxOfAux l v 0

/-- Scan of the data rows (Excel row numbers, starting at i) for the first
row whose cell in column c equals v under Python equality. -/
def findRowAux (rows : List (List Value)) (c : ℕ) (v : Value) (i : ℕ) : Option ℕ :=
  match rows with
  | [] => Option.none
  | r :: rs => if pyEq (getCell r c) v then some i else findRowAux rs c v (i + 1)

/-- The code's find-row-index-by: resolve the key column in the header, then
scan rows 2 to max-row top to bottom comparing the cell against the value
with Python equality; the first match wins. -/
def findRowIndexBy (s : Sheet) (key : String) (v : Value) : Option ℕ :=
  match idxOf s.header (Value.str key) with
  | Option.none => Option.none
  | some c => findRowAux s.rows c v 2

/-- The delete-by-id route body: find the row by id and delete that Excel
row; a no-op when nothing matched. -/
def dirDelete (s : Sheet) (did : Value) : Sheet :=
  match findRowIndexBy s "id" did with
  | some idx => { s with rows := s.rows.eraseIdx (idx - 2) }
  | Option.none => s

/-- Python key in patch for a JSON patch object (string keys). -/
def patchHasKey (patch : List (String × Value)) (k : String) : Bool :=
  patch.any (fun p => p.fst == k)

/-- Python patch[k] for a JSON patch object. -/
def patchGet (patch : List (String × Value)) (k : String) : Value :=
  match patch.find? (fun p => p.fst == k) with
  | some p => p.snd
  | Option.none => Value.none

/-- Overwrite cell (idx, c) of a sheet, idx being an Excel row number of a
data row (so idx - 2 indexes into rows). -/
def updateRowAt (s : Sheet) (idx : ℕ) (c : ℕ) (v : Value) : Sheet :=
  { s with rows := s.rows.set (idx - 2) (setCellInRow (s.rows.getD (idx - 2) []) c v) }

/-- One iteration of the update loop of the directory patch route: write
patch[key] or the empty string into the key's column of the found row, when
the key is both in the patch and in the header. -/
def dirUpdateStep (hdr : List Value) (patch : List (String × Value)) (idx : ℕ)
    (acc : Sheet) (key : String) : Sheet :=
  if patchHasKey patch key then
    match idxOf hdr (Value.str key) with
    | some c => updateRowAt acc idx c (pyOr (patchGet patch key) (Value.str ""))
    | Option.none => acc
  else acc

/-- The columns the directory patch route is willing to write. -/
def UPDATE_KEYS : List String := ["email", "phone", "address", "name"]

/-- The update-by-id route body for the directory table: find the row by id
(404, modelled None, when absent), then overwrite the patched columns among
email, phone, address and name. -/
def dirUpdate (s : Sheet) (did : Value) (patch : List (String × Value)) : Option Sheet :=
  match findRowIndexBy s "id" did with
  | Option.none => Option.none
  | some idx => some (UPDATE_KEYS.foldl (dirUpdateStep s.header patch idx) s)

/-- Python zip over the header and a data row as openpyxl delivers them:
both are padded to the sheet's full width, so the shorter side reads None. -/
def zipPad : List Value → List Value → List (Value × Value)
  | [], vs => vs.map (fun v => (Value.none, v))
  | k :: ks, [] => (k, Value.none) :: zipPad ks []
  | k :: ks, v :: vs => (k, v) :: zipPad ks vs

/-- The code's sheet-rows: one dict zip(headers, vals) per data row, rows
consisting only of None skipped. -/
def sheetRows (s : Sheet) : List Record :=
  s.rows.filterMap (fun r =>
    if r.all (fun v => v == Value.none) then Option.none
    else some (zipPad s.header r))

theorem pyEq_eq (a b : Value) : pyEq a b = true ↔ a = b := by
  cases a <;> cases b <;> simp [pyEq]

theorem foldl_max_le_init (l : List ℤ) : ∀ a : ℤ, a ≤ l.foldl max a := by
  induction l with
  | nil => intro a; exact le_rfl
  | cons x xs ih =>
    intro a
    rw [List.foldl_cons]
    exact le_trans (le_max_left a x) (ih (max a x))

theorem mem_le_foldl_max (l : List ℤ) : ∀ (a x : ℤ), x ∈ l → x ≤ l.foldl max a := by
  induction l with
  | nil => intro a x hx; exact absurd hx (List.not_mem_nil x)
  | cons y ys ih =>
    intro a x hx
    rw [List.foldl_cons]
    rcases List.mem_cons.mp hx with h | h
    · subst h
      exact le_trans (le_max_right a x) (foldl_max_le_init ys (max a x))
    · exact ih (max a y) x h

theorem mem_le_listMax0 (l : List ℤ) (x : ℤ) (h : x ∈ l) : x ≤ listMax0 l :=
  mem_le_foldl_max l 0 x h

/-- Claim C1 counterexample: in a directory table with rows id 1 and id 2,
deleting the row with id k = 2 and then computing next-id returns 2 again:
the id of a deleted row IS reused when it exceeded all remaining ids,
contradicting the claim that next-id never returns a deleted id. -/
theorem C1_counterexample :
    nextId (sheetRows (dirDelete
      (Sheet.mk [Value.str "id"] [[Value.int 1], [Value.int 2]]) (Value.int 2))) = 2 := by
  decide

/-- Claim C1 as amended: after delete-by-id of id k, next-id does not return
k as long as some remaining row still carries a numeric id at least k;
only the id of a deleted row that exceeded every remaining numeric id (such
as the maximum id) can be handed out again. -/
theorem C1_amended_no_reuse_below_max (s : Sheet) (k n : ℤ)
    (hmem : ∃ r ∈ sheetRows (dirDelete s (Value.int k)),
      claimNumericId (dictGet r (Value.str "id")) = some n)
    (hk : k ≤ n) :
    nextId (sheetRows (dirDelete s (Value.int k))) ≠ k := by
  have hn : n ∈ claimIds (sheetRows (dirDelete s (Value.int k))) := by
    obtain ⟨r, hr, hcl⟩ := hmem
    exact List.mem_filterMap.mpr ⟨r, hr, hcl⟩
  have hle : n ≤ listMax0 (claimIds (sheetRows (dirDelete s (Value.int k)))) :=
    mem_le_listMax0 _ n hn
  rw [nextId_eq_spec]
  omega

/-- Witness for the amended C1: deleting id 1 from a table with ids 1 and 3
leaves a row with id 3 at least 1, so next-id (which is 4) is not 1. -/
theorem C1_amended_no_reuse_below_max_witness :
    nextId (sheetRows (dirDelete
      (Sheet.mk [Value.str "id"] [[Value.int 1], [Value.int 3]]) (Value.int 1))) ≠ 1 :=
  C1_amended_no_reuse_below_max
    (Sheet.mk [Value.str "id"] [[Value.int 1], [Value.int 3]]) 1 3 (by decide) (by decide)

theorem findRowAux_spec (rows : List (List Value)) (c : ℕ) (v : Value) :
    ∀ (i n : ℕ), findRowAux rows c v i = some n →
      i ≤ n ∧ n - i < rows.length ∧
      pyEq (getCell (rows.getD (n - i) []) c) v = true ∧
      (∀ j, j < n - i → pyEq (getCell (rows.getD j []) c) v = false) := by
  induction rows with
  | nil => intro i n h; exact absurd h (by simp [findRowAux])
  | cons r rs ih =>
    intro i n h
    unfold findRowAux at h
    by_cases hr : pyEq (getCell r c) v = true
    · rw [if_pos hr] at h
      injection h with h
      subst h
      refine ⟨le_rfl, ?_, ?_, ?_⟩
      · simp
      · simpa using hr
      · intro j hj
        omega
    · rw [if_neg hr] at h
      obtain ⟨h1, h2, h3, h4⟩ := ih (i + 1) n h
      have hni : n - i = (n - (i + 1)) + 1 := by omega
      refine ⟨by omega, ?_, ?_, ?_⟩
      · simp only [List.length_cons]
        omega
      · rw [hni, List.getD_cons_succ]
        exact h3
      · intro j hj
        cases j with
        | zero =>
          rw [List.getD_cons_zero]
          exact Bool.not_eq_true _ ▸ (by simpa using hr)
        | succ j =>
          rw [List.getD_cons_succ]
          exact h4 j (by omega)

/-- Claim C7 counterexample: a data row whose id cell holds the TEXT "5" is
not found when looking up the numeric id 5, even though the string
representations of both values coincide: the comparison is plain Python
equality, not string-normalized equality. -/
theorem C7_counterexample :
    findRowIndexBy (Sheet.mk [Value.str "id"] [[Value.str "5"]]) "id" (Value.int 5) =
        Option.none ∧
      pyStr (Value.str "5") = pyStr (Value.int 5) := by
  constructor
  · decide
  · decide

/-- Claim C7 as amended: find-row-index-by resolves the key column in the
header, scans data rows top to bottom and returns the first row whose cell
equals the probe under PLAIN Python equality (so a textual id cell never
matches a numeric probe: pyEq of a str and an int is always false); both
update-by-id and delete-by-id locate their target through this scan. -/
theorem C7_amended_first_match_plain_eq (s : Sheet) (key : String) (v : Value) (n : ℕ)
    (h : findRowIndexBy s key v = some n) :
    (∃ c, idxOf s.header (Value.str key) = some c ∧
      2 ≤ n ∧ n - 2 < s.rows.length ∧
      pyEq (getCell (s.rows.getD (n - 2) []) c) v = true ∧
      (∀ j, j < n - 2 → pyEq (getCell (s.rows.getD j []) c) v = false)) ∧
    (∀ (t : String) (m : ℤ), pyEq (Value.str t) (Value.int m) = false) := by
  constructor
  · unfold findRowIndexBy at h
    rcases hidx : idxOf s.header (Value.str key) with _ | c
    · rw [hidx] at h
      exact absurd h (by simp)
    · rw [hidx] at h
      obtain ⟨h1, h2, h3, h4⟩ := findRowAux_spec s.rows c v 2 n h
      exact ⟨c, rfl, h1, h2, h3, h4⟩
  · intro t m
    rfl

/-- Witness for the amended C7: with rows carrying ids 7, 5, 5 the lookup of
id 5 lands on Excel row 3, the FIRST of the two matching rows. -/
theorem C7_amended_first_match_plain_eq_witness :
    (∃ c, idxOf (Sheet.mk [Value.str "id"]
        [[Value.int 7], [Value.int 5], [Value.int 5]]).header (Value.str "id") = some c ∧
      2 ≤ 3 ∧ 3 - 2 < (Sheet.mk [Value.str "id"]
        [[Value.int 7], [Value.int 5], [Value.int 5]]).rows.length ∧
      pyEq (getCell ((Sheet.mk [Value.str "id"]
        [[Value.int 7], [Value.int 5], [Value.int 5]]).rows.getD (3 - 2) []) c)
        (Value.int 5) = true ∧
      (∀ j, j < 3 - 2 → pyEq (getCell ((Sheet.mk [Value.str "id"]
        [[Value.int 7], [Value.int 5], [Value.int 5]]).rows.getD j []) c)
        (Value.int 5) = false)) ∧
    (∀ (t : String) (m : ℤ), pyEq (Value.str t) (Value.int m) = false) :=
  C7_amended_first_match_plain_eq
    (Sheet.mk [Value.str "id"] [[Value.int 7], [Value.int 5], [Value.int 5]])
    "id" (Value.int 5) 3 (by decide)

theorem idxOfAux_spec (l : List Value) (v : Value) :
    ∀ (j i : ℕ), idxOfAux l v j = some i → j ≤ i ∧ l.getD (i - j) Value.none = v := by
  induction l with
  | nil => intro j i h; exact absurd h (by simp [idxOfAux])
  | cons x xs ih =>
    intro j i h
    unfold idxOfAux at h
    by_cases hx : pyEq x v = true
    · rw [if_pos hx] at h
      injection h with h
      subst h
      refine ⟨le_rfl, ?_⟩
      rw [Nat.sub_self, List.getD_cons_zero]
      exact (pyEq_eq x v).mp hx
    · rw [if_neg hx] at h
      obtain ⟨h1, h2⟩ := ih (j + 1) i h
      refine ⟨by omega, ?_⟩
      rw [show i - j = (i - (j + 1)) + 1 from by omega, List.getD_cons_succ]
      exact h2

theorem idxOf_getD (l : List Value) (v : Value) (i : ℕ) (h : idxOf l v = some i) :
    l.getD i Value.none = v := by
  have h2 := (idxOfAux_spec l v 0 i h).2
  rwa [Nat.sub_zero] at h2

theorem getCell_append_replicate (row : List Value) (m c : ℕ) :
    getCell (row ++ List.replicate m Value.none) c = getCell row c := by
  unfold getCell
  rw [List.getD_eq_getElem?_getD, List.getD_eq_getElem?_getD]
  by_cases h : c < row.length
  · rw [List.getElem?_append_left h]
  · rw [List.getElem?_append_right (by omega)]
    rw [List.getElem?_replicate]
    rw [List.getElem?_eq_none (by omega : row.length ≤ c)]
    by_cases h2 : c - row.length < m
    · rw [if_pos h2]
      rfl
    · rw [if_neg h2]

theorem getCell_setCellInRow_ne (row : List Value) (c c' : ℕ) (v : Value) (h : c' ≠ c) :
    getCell (setCellInRow row c v) c' = getCell row c' := by
  unfold setCellInRow
  have hstep : getCell ((row ++ List.replicate (c + 1 - row.length) Value.none).set c v) c' =
      getCell (row ++ List.replicate (c + 1 - row.length) Value.none) c' := by
    unfold getCell
    rw [List.getD_eq_getElem?_getD, List.getD_eq_getElem?_getD]
    rw [List.getElem?_set_ne (fun hc => h hc.symm)]
  rw [hstep]
  exact getCell_append_replicate row (c + 1 - row.length) c'

theorem updateRowAt_header (s : Sheet) (idx c : ℕ) (v : Value) :
    (updateRowAt s idx c v).header = s.header := rfl

theorem updateRowAt_length (s : Sheet) (idx c : ℕ) (v : Value) :
    (updateRowAt s idx c v).rows.length = s.rows.length := by
  unfold updateRowAt
  exact List.length_set s.rows _ _

theorem updateRowAt_other_rows (s : Sheet) (idx c : ℕ) (v : Value) (i : ℕ) (h : i ≠ idx - 2) :
    (updateRowAt s idx c v).rows.getD i [] = s.rows.getD i [] := by
  unfold updateRowAt
  rw [List.getD_eq_getElem?_getD, List.getD_eq_getElem?_getD]
  rw [List.getElem?_set_ne (fun hc => h hc.symm)]
  rw [List.getD_eq_getElem?_getD]

theorem updateRowAt_target_cell_ne (s : Sheet) (idx c : ℕ) (v : Value) (c' : ℕ) (h : c' ≠ c) :
    getCell ((updateRowAt s idx c v).rows.getD (idx - 2) []) c' =
      getCell (s.rows.getD (idx - 2) []) c' := by
  unfold updateRowAt
  by_cases hlen : idx - 2 < s.rows.length
  · have hget : (s.rows.set (idx - 2) (setCellInRow (s.rows.getD (idx - 2) []) c v)).getD
        (idx - 2) [] = setCellInRow (s.rows.getD (idx - 2) []) c v := by
      rw [List.getD_eq_getElem?_getD, List.getElem?_set_self hlen]
      rfl
    rw [hget]
    exact getCell_setCellInRow_ne _ c c' v h
  · have hnone : ∀ (l : List (List Value)), l.length ≤ idx - 2 → l.getD (idx - 2) [] = [] := by
      intro l hl
      rw [List.getD_eq_getElem?_getD, List.getElem?_eq_none hl]
      rfl
    rw [hnone _ (by rw [List.length_set]; omega), hnone s.rows (by omega)]

theorem dirUpdateStep_header (hdr : List Value) (patch : List (String × Value)) (idx : ℕ)
    (acc : Sheet) (key : String) :
    (dirUpdateStep hdr patch idx acc key).header = acc.header := by
  unfold dirUpdateStep
  by_cases h : patchHasKey patch key = true
  · rw [if_pos h]
    rcases hidx : idxOf hdr (Value.str key) with _ | c
    · rfl
    · rfl
  · rw [if_neg h]

theorem dirUpdateStep_length (hdr : List Value) (patch : List (String × Value)) (idx : ℕ)
    (acc : Sheet) (key : String) :
    (dirUpdateStep hdr patch idx acc key).rows.length = acc.rows.length := by
  unfold dirUpdateStep
  by_cases h : patchHasKey patch key = true
  · rw [if_pos h]
    rcases hidx : idxOf hdr (Value.str key) with _ | c
    · rfl
    · exact updateRowAt_length acc idx c _
  · rw [if_neg h]

theorem dirUpdateStep_other_rows (hdr : List Value) (patch : List (String × Value)) (idx : ℕ)
    (acc : Sheet) (key : String) (i : ℕ) (hi : i ≠ idx - 2) :
    (dirUpdateStep hdr patch idx acc key).rows.getD i [] = acc.rows.getD i [] := by
  unfold dirUpdateStep
  by_cases h : patchHasKey patch key = true
  · rw [if_pos h]
    rcases hidx : idxOf hdr (Value.str key) with _ | c
    · rfl
    · exact updateRowAt_other_rows acc idx c _ i hi
  · rw [if_neg h]

theorem dirUpdateStep_target_cell (hdr : List Value) (patch : List (String × Value)) (idx : ℕ)
    (acc : Sheet) (key : String) (c : ℕ)
    (hc : ∀ p ∈ patch, Value.str p.fst ≠ hdr.getD c Value.none) :
    getCell ((dirUpdateStep hdr patch idx acc key).rows.getD (idx - 2) []) c =
      getCell (acc.rows.getD (idx - 2) []) c := by
  unfold dirUpdateStep
  by_cases h : patchHasKey patch key = true
  · rw [if_pos h]
    rcases hidx : idxOf hdr (Value.str key) with _ | c0
    · rfl
    · have hkey : hdr.getD c0 Value.none = Value.str key := idxOf_getD hdr (Value.str key) c0 hidx
      have hp : ∃ p ∈ patch, p.fst = key := by
        unfold patchHasKey at h
        rw [List.any_eq_true] at h
        obtain ⟨p, hp1, hp2⟩ := h
        exact ⟨p, hp1, by simpa using hp2⟩
      have hcc : c ≠ c0 := by
        intro hcontra
        subst hcontra
        obtain ⟨p, hp1, hp2⟩ := hp
        exact hc p hp1 (by rw [hkey, hp2])
      exact updateRowAt_target_cell_ne acc idx c0 _ c hcc
  · rw [if_neg h]

theorem dirUpdate_foldl_frame (hdr : List Value) (patch : List (String × Value)) (idx : ℕ) :
    ∀ (keys : List String) (acc : Sheet),
      (keys.foldl (dirUpdateStep hdr patch idx) acc).header = acc.header ∧
      (keys.foldl (dirUpdateStep hdr patch idx) acc).rows.length = acc.rows.length ∧
      (∀ i, i ≠ idx - 2 →
        (keys.foldl (dirUpdateStep hdr patch idx) acc).rows.getD i [] = acc.rows.getD i []) ∧
      (∀ c, (∀ p ∈ patch, Value.str p.fst ≠ hdr.getD c Value.none) →
        getCell ((keys.foldl (dirUpdateStep hdr patch idx) acc).rows.getD (idx - 2) []) c =
          getCell (acc.rows.getD (idx - 2) []) c) := by
  intro keys
  induction keys with
  | nil => intro acc; exact ⟨rfl, rfl, fun i _ => rfl, fun c _ => rfl⟩
  | cons key ks ih =>
    intro acc
    rw [List.foldl_cons]
    obtain ⟨ih1, ih2, ih3, ih4⟩ := ih (dirUpdateStep hdr patch idx acc key)
    refine ⟨?_, ?_, ?_, ?_⟩
    · rw [ih1]
      exact dirUpdateStep_header hdr patch idx acc key
    · rw [ih2]
      exact dirUpdateStep_length hdr patch idx acc key
    · intro i hi
      rw [ih3 i hi]
      exact dirUpdateStep_other_rows hdr patch idx acc key i hi
    · intro c hc
      rw [ih4 c hc]
      exact dirUpdateStep_target_cell hdr patch idx acc key c hc

/-- Claim C6: update-by-id overwrites only the columns named in the patch of
the first matching row.  Given that the id scan found Excel row n, the
updated sheet has the same header, the same number of rows, every row other
than the matched one unchanged, and every cell of the matched row whose
column name is not a key of the patch unchanged. -/
theorem C6_update_frame (s : Sheet) (did : Value) (patch : List (String × Value))
    (s2 : Sheet) (n : ℕ)
    (hfind : findRowIndexBy s "id" did = some n)
    (hupd : dirUpdate s did patch = some s2) :
    s2.header = s.header ∧
    s2.rows.length = s.rows.length ∧
    (∀ i, i ≠ n - 2 → s2.rows.getD i [] = s.rows.getD i []) ∧
    (∀ c, (∀ p ∈ patch, Value.str p.fst ≠ s.header.getD c Value.none) →
      getCell (s2.rows.getD (n - 2) []) c = getCell (s.rows.getD (n - 2) []) c) := by
  unfold dirUpdate at hupd
  rw [hfind] at hupd
  injection hupd with hupd
  subst hupd
  exact dirUpdate_foldl_frame s.header patch n UPDATE_KEYS s

/-- Concrete directory sheet used by the C6 witness. -/
def C6sheet : Sheet :=
  Sheet.mk [Value.str "id", Value.str "type", Value.str "name", Value.str "email"]
    [[Value.int 1, Value.str "supplier", Value.str "Acme", Value.str "a"],
     [Value.int 2, Value.str "workshop", Value.str "B", Value.str "b"]]

/-- Concrete patch used by the C6 witness: only the email column is named. -/
def C6patch : List (String × Value) := [("email", Value.str "new")]

/-- The sheet after the C6 witness update: only the email cell of row 2
changed. -/
def C6after : Sheet :=
  Sheet.mk [Value.str "id", Value.str "type", Value.str "name", Value.str "email"]
    [[Value.int 1, Value.str "supplier", Value.str "Acme", Value.str "new"],
     [Value.int 2, Value.str "workshop", Value.str "B", Value.str "b"]]

/-- Witness for C6: patching the email of id 1 leaves the header, the second
row, and the non-email cells of the first row untouched. -/
theorem C6_update_frame_witness :
    C6after.header = C6sheet.header ∧
    C6after.rows.length = C6sheet.rows.length ∧
    (∀ i, i ≠ 0 → C6after.rows.getD i [] = C6sheet.rows.getD i []) ∧
    (∀ c, (∀ p ∈ C6patch, Value.str p.fst ≠ C6sheet.header.getD c Value.none) →
      getCell (C6after.rows.getD 0 []) c = getCell (C6sheet.rows.getD 0 []) c) :=
  C6_update_frame C6sheet (Value.int 1) C6patch C6after 2 (by decide) (by decide)

/-- One step of the missing-column loop of the schema upgrade: when the
column name is not already a header cell (Python membership under ==, which
on these values coincides with structural equality), write it as a new
trailing header cell at column len(headers) + 1 and flag the change. -/
def upgradeColsStep (acc : List Value × Bool) (c : String) : List Value × Bool :=
  if Value.str c ∈ acc.fst then acc else (acc.fst ++ [Value.str c], true)

/-- The missing-column loop of the schema upgrade applied to a header row:
for each required column name in order, append it if absent. -/
def upgradeCols (header : List Value) (cols : List String) : List Value × Bool :=
  cols.foldl upgradeColsStep (header, false)

/-- The value a record-reading of a row reports under a named column: the
cell at the column's first header index, None when the column is absent. -/
def valueUnder (header : List Value) (row : List Value) (name : Value) : Value :=
  match idxOf header name with
  | some i => getCell row i
  | Option.none => Value.none

theorem upgradeCols_foldl_extends (cols : List String) :
    ∀ (acc : List Value × Bool), ∃ e, (cols.foldl upgradeColsStep acc).fst = acc.fst ++ e := by
  induction cols with
  | nil => intro acc; exact ⟨[], by simp⟩
  | cons c cs ih =>
    intro acc
    rw [List.foldl_cons]
    by_cases h : Value.str c ∈ acc.fst
    · rw [show upgradeColsStep acc c = acc from by
        unfold upgradeColsStep
        rw [if_pos h]]
      exact ih acc
    · rw [show upgradeColsStep acc c = (acc.fst ++ [Value.str c], true) from by
        unfold upgradeColsStep
        rw [if_neg h]]
      obtain ⟨e, he⟩ := ih (acc.fst ++ [Value.str c], true)
      refine ⟨[Value.str c] ++ e, ?_⟩
      rw [he]
      simp

theorem upgradeCols_foldl_mem (cols : List String) :
    ∀ (acc : List Value × Bool) (c : String), c ∈ cols →
      Value.str c ∈ (cols.foldl upgradeColsStep acc).fst := by
  induction cols with
  | nil => intro acc c hc; exact absurd hc (List.not_mem_nil c)
  | cons c0 cs ih =>
    intro acc c hc
    rw [List.foldl_cons]
    rcases List.mem_cons.mp hc with h | h
    · subst h
      obtain ⟨e, he⟩ := upgradeCols_foldl_extends cs (upgradeColsStep acc c)
      rw [he]
      unfold upgradeColsStep
      by_cases hmem : Value.str c ∈ acc.fst
      · rw [if_pos hmem]
        exact List.mem_append_left e hmem
      · rw [if_neg hmem]
        exact List.mem_append_left e (List.mem_append_right acc.fst (by simp))
    · exact ih (upgradeColsStep acc c0) c h

theorem upgradeCols_foldl_noop (cols : List String) :
    ∀ (acc : List Value × Bool), (∀ c ∈ cols, Value.str c ∈ acc.fst) →
      cols.foldl upgradeColsStep acc = acc := by
  induction cols with
  | nil => intro acc _; rfl
  | cons c cs ih =>
    intro acc hall
    rw [List.foldl_cons]
    have hc : upgradeColsStep acc c = acc := by
      unfold upgradeColsStep
      rw [if_pos (hall c (List.mem_cons_self c cs))]
    rw [hc]
    exact ih acc (fun c2 hc2 => hall c2 (List.mem_cons_of_mem c hc2))

theorem idxOfAux_append_of_mem (l : List Value) (v : Value) :
    ∀ (t : List Value) (j : ℕ), v ∈ l → idxOfAux (l ++ t) v j = idxOfAux l v j := by
  induction l with
  | nil => intro t j h; exact absurd h (List.not_mem_nil v)
  | cons x xs ih =>
    intro t j h
    rw [List.cons_append]
    unfold idxOfAux
    by_cases hx : pyEq x v = true
    · rw [if_pos hx, if_pos hx]
    · rw [if_neg hx, if_neg hx]
      have hvx : v ≠ x := by
        intro hcontra
        subst hcontra
        exact hx ((pyEq_eq v v).mpr rfl)
      have hmem : v ∈ xs := by
        rcases List.mem_cons.mp h with h1 | h1
        · exact absurd h1 hvx
        · exact h1
      exact ih t (j + 1) hmem

theorem idxOf_append_of_mem (l t : List Value) (v : Value) (h : v ∈ l) :
    idxOf (l ++ t) v = idxOf l v :=
  idxOfAux_append_of_mem l v t 0 h

theorem idxOfAux_append_not_mem (l : List Value) (v : Value) :
    ∀ (t : List Value) (j : ℕ), v ∉ l →
      idxOfAux (l ++ t) v j = idxOfAux t v (j + l.length) := by
  induction l with
  | nil => intro t j _; rw [List.nil_append]; rfl
  | cons x xs ih =>
    intro t j h
    rw [List.cons_append]
    unfold idxOfAux
    have hx : pyEq x v = false := by
      rw [← Bool.not_eq_true]
      intro hcontra
      exact h (((pyEq_eq x v).mp hcontra) ▸ List.mem_cons_self x xs)
    rw [if_neg (by simp [hx])]
    rw [ih t (j + 1) (fun hc => h (List.mem_cons_of_mem x hc))]
    have harith : j + (x :: xs).length = j + 1 + xs.length := by
      rw [List.length_cons]
      omega
    rw [harith]
    cases t with
    | nil => rfl
    | cons y ys => rfl

theorem valueUnder_extend_of_mem (header e row : List Value) (v : Value) (h : v ∈ header) :
    valueUnder (header ++ e) row v = valueUnder header row v := by
  unfold valueUnder
  rw [idxOf_append_of_mem header e v h]

theorem valueUnder_extend_not_mem (header e row : List Value) (v : Value)
    (h : v ∉ header) (hrow : row.length ≤ header.length) :
    valueUnder (header ++ e) row v = Value.none := by
  unfold valueUnder
  rw [show idxOf (header ++ e) v = idxOfAux e v header.length from by
    unfold idxOf
    rw [idxOfAux_append_not_mem header v e 0 h]
    congr 1
    omega]
  rcases hi : idxOfAux e v header.length with _ | i
  · rfl
  · have hge : header.length ≤ i := (idxOfAux_spec e v header.length i hi).1
    show getCell row i = Value.none
    unfold getCell
    rw [List.getD_eq_getElem?_getD, List.getElem?_eq_none (by omega)]
    rfl

/-- Claim C3: the schema upgrade is strictly additive.  For every header
row, every list of required column names and every pre-existing data row:
the upgraded header extends the original (existing columns are neither
removed nor reordered, new ones are trailing), every required column is
present afterwards, every value of the row under an original column is
unchanged, and a column that was missing reads as None (empty) for the
pre-existing row, provided the row does not extend beyond the header. -/
theorem C3_upgrade_additive (header : List Value) (cols : List String) (row : List Value) :
    (∃ e, (upgradeCols header cols).fst = header ++ e) ∧
    (∀ c ∈ cols, Value.str c ∈ (upgradeCols header cols).fst) ∧
    (∀ v ∈ header, valueUnder (upgradeCols header cols).fst row v = valueUnder header row v) ∧
    (∀ c ∈ cols, Value.str c ∉ header → row.length ≤ header.length →
      valueUnder (upgradeCols header cols).fst row (Value.str c) = Value.none) := by
  obtain ⟨e, he⟩ := upgradeCols_foldl_extends cols (header, false)
  refine ⟨⟨e, he⟩, ?_, ?_, ?_⟩
  · intro c hc
    exact upgradeCols_foldl_mem cols (header, false) c hc
  · intro v hv
    rw [show (upgradeCols header cols).fst = header ++ e from he]
    exact valueUnder_extend_of_mem header e row v hv
  · intro c hc hnot hrow
    rw [show (upgradeCols header cols).fst = header ++ e from he]
    exact valueUnder_extend_not_mem header e row (Value.str c) hnot hrow

/-- Witness for C3: upgrading the header [id, name] with required columns
[name, currency] leaves the id value of the row readable unchanged, reports
the new currency column as empty, and indeed adds the currency column. -/
theorem C3_upgrade_additive_witness :
    valueUnder (upgradeCols [Value.str "id", Value.str "name"] ["name", "currency"]).fst
        [Value.int 1, Value.str "x"] (Value.str "id") = Value.int 1 ∧
    valueUnder (upgradeCols [Value.str "id", Value.str "name"] ["name", "currency"]).fst
        [Value.int 1, Value.str "x"] (Value.str "currency") = Value.none ∧
    Value.str "currency" ∈
      (upgradeCols [Value.str "id", Value.str "name"] ["name", "currency"]).fst := by
  refine ⟨?_, ?_, ?_⟩
  · have h := (C3_upgrade_additive [Value.str "id", Value.str "name"] ["name", "currency"]
      [Value.int 1, Value.str "x"]).2.2.1 (Value.str "id") (by decide)
    rw [h]
    decide
  · exact (C3_upgrade_additive [Value.str "id", Value.str "name"] ["name", "currency"]
      [Value.int 1, Value.str "x"]).2.2.2 "currency" (by decide) (by decide) (by decide)
  · exact (C3_upgrade_additive [Value.str "id", Value.str "name"] ["name", "currency"]
      [Value.int 1, Value.str "x"]).2.1 "currency" (by decide)

/-- A workbook: the ordered list of named sheets of the file. -/
abbrev Workbook := List (String × Sheet)

/-- wb[title] and the sheetnames membership test: the first sheet carrying
the name, None when absent. -/
def wbFind (wb : Workbook) (t : String) : Option Sheet :=
  match wb with
  | [] => Option.none
  | (n, sh) :: rest => if n == t then some sh else wbFind rest t

/-- Replace the sheet with the given name (first occurrence). -/
def wbSet (wb : Workbook) (t : String) (s : Sheet) : Workbook :=
  match wb with
  | [] => []
  | (n, sh) :: rest => if n == t then (n, s) :: rest else (n, sh) :: wbSet rest t s

/-- The SHEETS table of the source: sheet names with their header columns. -/
def SHEETS : List (String × List String) := [
  ("Users", ["username", "password_hash", "role"]),
  ("Directory", ["id", "type", "name", "email", "phone", "address"]),
  ("Requisitions", ["id", "number", "vessel", "supplier", "date_ordered", "expected",
    "total_amount", "paid", "category", "delivered", "status", "currency", "original_amount"]),
  ("Landings", ["id", "vessel", "item", "workshop", "amount", "paid", "expected",
    "landed_date", "status", "delivered", "currency", "amount_original"]),
  ("Categories", ["id", "name", "abbr"]),
  ("Vessels", ["id", "name"])]

/-- Writing the header names into row 1 cell by cell (columns 1..len),
keeping any trailing cells beyond them. -/
def overwriteHeader (old : List Value) (hs : List String) : List Value :=
  hs.map Value.str ++ old.drop hs.length

/-- The blank-sheet test of the upgrade: max_row = 1 (no data rows) and
every cell of row 1 is None. -/
def sheetBlank (s : Sheet) : Bool :=
  s.rows.isEmpty && s.header.all (fun v => v == Value.none)

/-- One step of the ensure-sheets loop of the schema upgrade: create a
missing sheet with its header row appended, write the headers into a blank
sheet, otherwise leave the workbook alone; the Bool carries the changed
flag. -/
def ensureSheetsStep (acc : Workbook × Bool) (td : String × List String) : Workbook × Bool :=
  match wbFind acc.fst td.fst with
  | Option.none => (acc.fst ++ [(td.fst, Sheet.mk (td.snd.map Value.str) [])], true)
  | some ws =>
    if sheetBlank ws then
      (wbSet acc.fst td.fst (Sheet.mk (overwriteHeader ws.header td.snd) ws.rows), true)
    else acc

/-- The Requisitions columns the upgrade appends when missing. -/
def REQ_NEW_COLS : List String :=
  ["category", "delivered", "status", "currency", "original_amount"]

/-- The Landings columns the upgrade appends when missing. -/
def LAND_NEW_COLS : List String :=
  ["landed_date", "status", "delivered", "currency", "amount_original"]

/-- The missing-column phase of the upgrade for the Requisitions sheet. -/
def upgradeSchemaReq (wb : Workbook) : Workbook × Bool :=
  let s := (wbFind wb "Requisitions").getD (Sheet.mk [] [])
  let u := upgradeCols s.header REQ_NEW_COLS
  (wbSet wb "Requisitions" (Sheet.mk u.fst s.rows), u.snd)

/-- The missing-column phase of the upgrade for the Landings sheet. -/
def upgradeSchemaLand (wb : Workbook) : Workbook × Bool :=
  let s := (wbFind wb "Landings").getD (Sheet.mk [] [])
  let u := upgradeCols s.header LAND_NEW_COLS
  (wbSet wb "Landings" (Sheet.mk u.fst s.rows), u.snd)

/-- The schema upgrade of the source: ensure every sheet of SHEETS exists
with at least a header row, then append any missing required column to the
Requisitions and Landings headers; the Bool is the changed flag, and the
file is saved inside the upgrade exactly when it is true. -/
def upgradeSchema (wb : Workbook) : Workbook × Bool :=
  let p1 := SHEETS.foldl ensureSheetsStep (wb, false)
  let p2 := upgradeSchemaReq p1.fst
  let p3 := upgradeSchemaLand p2.fst
  (p3.fst, p1.snd || p2.snd || p3.snd)

/-- Header columns of a sheet name according to SHEETS. -/
def sheetHeaders (t : String) : List String :=
  match SHEETS.find? (fun p => p.fst == t) with
  | some p => p.snd
  | Option.none => []

/-- The ensure-workbook of the source, with the file contents passed
explicitly (None: the file does not exist) and the number of file saves of
the call returned alongside the resulting contents.  An existing file is
loaded, schema-upgraded (one save when the upgrade changed something), then
unconditionally saved again.  A missing file is freshly built with a Users
sheet seeded with the admin row (the password hash is a parameter, as it is
salted at run time) and the other sheets with bare headers, then upgraded
and saved the same way. -/
def ensureWorkbook (adminHash : String) (file : Option Workbook) : Workbook × ℕ :=
  match file with
  | some wb =>
    let up := upgradeSchema wb
    (up.fst, (if up.snd then 1 else 0) + 1)
  | Option.none =>
    let users : Sheet := Sheet.mk (["username", "password_hash", "role"].map Value.str)
      [[Value.str "admin", Value.str adminHash, Value.str "admin"]]
    let wb0 : Workbook := ("Users", users) ::
      ["Directory", "Requisitions", "Landings", "Categories", "Vessels"].map
        (fun t => (t, Sheet.mk ((sheetHeaders t).map Value.str) []))
    let up := upgradeSchema wb0
    (up.fst, (if up.snd then 1 else 0) + 1)

theorem wbFind_nil (t : String) : wbFind [] t = Option.none := rfl

theorem wbFind_cons (n : String) (sh : Sheet) (rest : Workbook) (t : String) :
    wbFind ((n, sh) :: rest) t = if n == t then some sh else wbFind rest t := rfl

theorem wbSet_cons (n : String) (sh : Sheet) (rest : Workbook) (t : String) (s : Sheet) :
    wbSet ((n, sh) :: rest) t s =
      if n == t then (n, s) :: rest else (n, sh) :: wbSet rest t s := rfl

theorem wbFind_append_self (wb : Workbook) (t : String) (s : Sheet)
    (h : wbFind wb t = Option.none) : wbFind (wb ++ [(t, s)]) t = some s := by
  induction wb with
  | nil =>
    rw [List.nil_append, wbFind_cons]
    simp
  | cons p rest ih =>
    obtain ⟨n, sh⟩ := p
    rw [wbFind_cons] at h
    rw [List.cons_append, wbFind_cons]
    by_cases hn : (n == t) = true
    · rw [if_pos hn] at h
      exact absurd h (by simp)
    · rw [if_neg hn] at h
      rw [if_neg hn]
      exact ih h

theorem wbFind_append_ne (wb : Workbook) (x u : String) (s : Sheet) (h : x ≠ u) :
    wbFind (wb ++ [(x, s)]) u = wbFind wb u := by
  induction wb with
  | nil =>
    rw [List.nil_append, wbFind_cons]
    rw [if_neg (by simpa using h)]
  | cons p rest ih =>
    obtain ⟨n, sh⟩ := p
    rw [List.cons_append, wbFind_cons, wbFind_cons]
    by_cases hn : (n == u) = true
    · rw [if_pos hn, if_pos hn]
    · rw [if_neg hn, if_neg hn]
      exact ih

theorem wbFind_wbSet_self (wb : Workbook) (t : String) (s0 s : Sheet)
    (h : wbFind wb t = some s0) : wbFind (wbSet wb t s) t = some s := by
  induction wb with
  | nil => exact absurd h (by simp [wbFind])
  | cons p rest ih =>
    obtain ⟨n, sh⟩ := p
    rw [wbFind_cons] at h
    rw [wbSet_cons]
    by_cases hn : (n == t) = true
    · rw [if_pos hn] at h
      rw [if_pos hn, wbFind_cons, if_pos hn]
    · rw [if_neg hn] at h
      rw [if_neg hn, wbFind_cons, if_neg hn]
      exact ih h

theorem wbFind_wbSet_ne (wb : Workbook) (t u : String) (s : Sheet) (h : t ≠ u) :
    wbFind (wbSet wb t s) u = wbFind wb u := by
  induction wb with
  | nil => rfl
  | cons p rest ih =>
    obtain ⟨n, sh⟩ := p
    rw [wbSet_cons, wbFind_cons]
    by_cases hn : (n == t) = true
    · have hnt : n = t := by simpa using hn
      have hnu : (n == u) = false := by
        subst hnt
        simpa using h
      rw [if_pos hn, wbFind_cons, if_neg (by simp [hnu]), if_neg (by simp [hnu])]
    · rw [if_neg hn, wbFind_cons]
      by_cases hnu : (n == u) = true
      · rw [if_pos hnu, if_pos hnu]
      · rw [if_neg hnu, if_neg hnu]
        exact ih

theorem wbSet_find_self (wb : Workbook) (t : String) (s : Sheet)
    (h : wbFind wb t = some s) : wbSet wb t s = wb := by
  induction wb with
  | nil => rfl
  | cons p rest ih =>
    obtain ⟨n, sh⟩ := p
    rw [wbFind_cons] at h
    rw [wbSet_cons]
    by_cases hn : (n == t) = true
    · rw [if_pos hn] at h
      rw [if_pos hn]
      injection h with h
      rw [h]
    · rw [if_neg hn] at h
      rw [if_neg hn]
      rw [ih h]

theorem sheetBlank_extendHeader (h e : List Value) (r : List (List Value))
    (hb : sheetBlank (Sheet.mk h r) = false) :
    sheetBlank (Sheet.mk (h ++ e) r) = false := by
  unfold sheetBlank at *
  simp only at *
  cases hre : r.isEmpty with
  | false => rw [Bool.false_and]
  | true =>
    rw [hre, Bool.true_and] at hb
    simp [List.all_append, hb]

theorem ensureSheetsStep_establish (acc : Workbook × Bool) (td : String × List String)
    (h : td.snd ≠ []) :
    ∃ s, wbFind (ensureSheetsStep acc td).fst td.fst = some s ∧ sheetBlank s = false := by
  rcases hf : wbFind acc.fst td.fst with _ | ws
  · have hstep : ensureSheetsStep acc td =
        (acc.fst ++ [(td.fst, Sheet.mk (td.snd.map Value.str) [])], true) := by
      unfold ensureSheetsStep
      rw [hf]
    rw [hstep]
    refine ⟨Sheet.mk (td.snd.map Value.str) [], wbFind_append_self acc.fst td.fst _ hf, ?_⟩
    unfold sheetBlank
    cases htd : td.snd with
    | nil => exact absurd htd h
    | cons c cs => simp [List.all_cons]
  · by_cases hb : sheetBlank ws = true
    · have hstep : ensureSheetsStep acc td =
          (wbSet acc.fst td.fst (Sheet.mk (overwriteHeader ws.header td.snd) ws.rows), true) := by
        unfold ensureSheetsStep
        simp only [hf]
        show (if sheetBlank ws = true then
            (wbSet acc.fst td.fst (Sheet.mk (overwriteHeader ws.header td.snd) ws.rows), true)
          else acc) =
          (wbSet acc.fst td.fst (Sheet.mk (overwriteHeader ws.header td.snd) ws.rows), true)
        rw [if_pos hb]
      rw [hstep]
      refine ⟨Sheet.mk (overwriteHeader ws.header td.snd) ws.rows,
        wbFind_wbSet_self acc.fst td.fst ws _ hf, ?_⟩
      unfold sheetBlank overwriteHeader
      cases htd : td.snd with
      | nil => exact absurd htd h
      | cons c cs => simp [List.all_cons]
    · have hstep : ensureSheetsStep acc td = acc := by
        unfold ensureSheetsStep
        simp only [hf]
        show (if sheetBlank ws = true then
            (wbSet acc.fst td.fst (Sheet.mk (overwriteHeader ws.header td.snd) ws.rows), true)
          else acc) = acc
        rw [if_neg hb]
      rw [hstep]
      exact ⟨ws, hf, by simpa using hb⟩

theorem ensureSheetsStep_pres (acc : Workbook × Bool) (td : String × List String) (u : String)
    (h : td.fst ≠ u) :
    wbFind (ensureSheetsStep acc td).fst u = wbFind acc.fst u := by
  rcases hf : wbFind acc.fst td.fst with _ | ws
  · have hstep : ensureSheetsStep acc td =
        (acc.fst ++ [(td.fst, Sheet.mk (td.snd.map Value.str) [])], true) := by
      unfold ensureSheetsStep
      rw [hf]
    rw [hstep]
    exact wbFind_append_ne acc.fst td.fst u _ h
  · by_cases hb : sheetBlank ws = true
    · have hstep : ensureSheetsStep acc td =
          (wbSet acc.fst td.fst (Sheet.mk (overwriteHeader ws.header td.snd) ws.rows), true) := by
        unfold ensureSheetsStep
        simp only [hf]
        show (if sheetBlank ws = true then
            (wbSet acc.fst td.fst (Sheet.mk (overwriteHeader ws.header td.snd) ws.rows), true)
          else acc) =
          (wbSet acc.fst td.fst (Sheet.mk (overwriteHeader ws.header td.snd) ws.rows), true)
        rw [if_pos hb]
      rw [hstep]
      exact wbFind_wbSet_ne acc.fst td.fst u _ h
    · have hstep : ensureSheetsStep acc td = acc := by
        unfold ensureSheetsStep
        simp only [hf]
        show (if sheetBlank ws = true then
            (wbSet acc.fst td.fst (Sheet.mk (overwriteHeader ws.header td.snd) ws.rows), true)
          else acc) = acc
        rw [if_neg hb]
      rw [hstep]

theorem ensureSheetsStep_noop (acc : Workbook × Bool) (td : String × List String) (s : Sheet)
    (h1 : wbFind acc.fst td.fst = some s) (h2 : sheetBlank s = false) :
    ensureSheetsStep acc td = acc := by
  unfold ensureSheetsStep
  simp only [h1]
  show (if sheetBlank s = true then
      (wbSet acc.fst td.fst (Sheet.mk (overwriteHeader s.header td.snd) s.rows), true)
    else acc) = acc
  rw [if_neg (by rw [h2]; simp)]

theorem ensure_foldl_pres (L : List (String × List String)) :
    ∀ (acc : Workbook × Bool) (u : String), (∀ td ∈ L, td.fst ≠ u) →
      wbFind (L.foldl ensureSheetsStep acc).fst u = wbFind acc.fst u := by
  induction L with
  | nil => intro acc u _; rfl
  | cons td L2 ih =>
    intro acc u hall
    rw [List.foldl_cons]
    rw [ih (ensureSheetsStep acc td) u (fun td2 h2 => hall td2 (List.mem_cons_of_mem td h2))]
    exact ensureSheetsStep_pres acc td u (hall td (List.mem_cons_self td L2))

theorem ensure_foldl_establish (L : List (String × List String)) :
    ∀ (acc : Workbook × Bool),
      (∀ td ∈ L, td.snd ≠ []) → L.Pairwise (fun a b => a.fst ≠ b.fst) →
      ∀ td ∈ L, ∃ s, wbFind (L.foldl ensureSheetsStep acc).fst td.fst = some s ∧
        sheetBlank s = false := by
  induction L with
  | nil => intro acc _ _ td htd; exact absurd htd (List.not_mem_nil td)
  | cons td0 L2 ih =>
    intro acc hne hpw td htd
    rw [List.foldl_cons]
    rcases List.mem_cons.mp htd with h | h
    · subst h
      obtain ⟨s, hs1, hs2⟩ :=
        ensureSheetsStep_establish acc td (hne td (List.mem_cons_self td L2))
      refine ⟨s, ?_, hs2⟩
      rw [ensure_foldl_pres L2 (ensureSheetsStep acc td) td.fst
        (fun td2 h2 => Ne.symm ((List.pairwise_cons.mp hpw).1 td2 h2))]
      exact hs1
    · exact ih (ensureSheetsStep acc td0)
        (fun td2 h2 => hne td2 (List.mem_cons_of_mem td0 h2))
        (List.pairwise_cons.mp hpw).2 td h

theorem ensure_foldl_noop (L : List (String × List String)) :
    ∀ (acc : Workbook × Bool),
      (∀ td ∈ L, ∃ s, wbFind acc.fst td.fst = some s ∧ sheetBlank s = false) →
      L.foldl ensureSheetsStep acc = acc := by
  induction L with
  | nil => intro acc _; rfl
  | cons td0 L2 ih =>
    intro acc hall
    rw [List.foldl_cons]
    obtain ⟨s, h1, h2⟩ := hall td0 (List.mem_cons_self td0 L2)
    rw [ensureSheetsStep_noop acc td0 s h1 h2]
    exact ih acc (fun td h => hall td (List.mem_cons_of_mem td0 h))

theorem upgradeSchemaReq_found (wb : Workbook) (s : Sheet)
    (hf : wbFind wb "Requisitions" = some s) (hb : sheetBlank s = false) :
    (∃ s2, wbFind (upgradeSchemaReq wb).fst "Requisitions" = some s2 ∧
      sheetBlank s2 = false ∧ (∀ c ∈ REQ_NEW_COLS, Value.str c ∈ s2.header)) ∧
    (∀ u, u ≠ "Requisitions" → wbFind (upgradeSchemaReq wb).fst u = wbFind wb u) := by
  have hdef : (upgradeSchemaReq wb).fst =
      wbSet wb "Requisitions" (Sheet.mk (upgradeCols s.header REQ_NEW_COLS).fst s.rows) := by
    unfold upgradeSchemaReq
    rw [hf]
    rfl
  constructor
  · refine ⟨Sheet.mk (upgradeCols s.header REQ_NEW_COLS).fst s.rows, ?_, ?_, ?_⟩
    · rw [hdef]
      exact wbFind_wbSet_self wb _ s _ hf
    · obtain ⟨e, he⟩ := upgradeCols_foldl_extends REQ_NEW_COLS (s.header, false)
      rw [show (upgradeCols s.header REQ_NEW_COLS).fst = s.header ++ e from he]
      exact sheetBlank_extendHeader s.header e s.rows
        (by rw [show Sheet.mk s.header s.rows = s from rfl]; exact hb)
    · intro c hc
      exact upgradeCols_foldl_mem REQ_NEW_COLS (s.header, false) c hc
  · intro u hu
    rw [hdef]
    exact wbFind_wbSet_ne wb "Requisitions" u _ (fun hc => hu hc.symm)

theorem upgradeSchemaLand_found (wb : Workbook) (s : Sheet)
    (hf : wbFind wb "Landings" = some s) (hb : sheetBlank s = false) :
    (∃ s2, wbFind (upgradeSchemaLand wb).fst "Landings" = some s2 ∧
      sheetBlank s2 = false ∧ (∀ c ∈ LAND_NEW_COLS, Value.str c ∈ s2.header)) ∧
    (∀ u, u ≠ "Landings" → wbFind (upgradeSchemaLand wb).fst u = wbFind wb u) := by
  have hdef : (upgradeSchemaLand wb).fst =
      wbSet wb "Landings" (Sheet.mk (upgradeCols s.header LAND_NEW_COLS).fst s.rows) := by
    unfold upgradeSchemaLand
    rw [hf]
    rfl
  constructor
  · refine ⟨Sheet.mk (upgradeCols s.header LAND_NEW_COLS).fst s.rows, ?_, ?_, ?_⟩
    · rw [hdef]
      exact wbFind_wbSet_self wb _ s _ hf
    · obtain ⟨e, he⟩ := upgradeCols_foldl_extends LAND_NEW_COLS (s.header, false)
      rw [show (upgradeCols s.header LAND_NEW_COLS).fst = s.header ++ e from he]
      exact sheetBlank_extendHeader s.header e s.rows
        (by rw [show Sheet.mk s.header s.rows = s from rfl]; exact hb)
    · intro c hc
      exact upgradeCols_foldl_mem LAND_NEW_COLS (s.header, false) c hc
  · intro u hu
    rw [hdef]
    exact wbFind_wbSet_ne wb "Landings" u _ (fun hc => hu hc.symm)

theorem upgradeSchemaReq_noop (wb : Workbook) (s : Sheet)
    (hf : wbFind wb "Requisitions" = some s)
    (hc : ∀ c ∈ REQ_NEW_COLS, Value.str c ∈ s.header) :
    upgradeSchemaReq wb = (wb, false) := by
  have hcols : upgradeCols s.header REQ_NEW_COLS = (s.header, false) :=
    upgradeCols_foldl_noop REQ_NEW_COLS (s.header, false) hc
  unfold upgradeSchemaReq
  rw [hf]
  simp only [Option.getD_some, hcols]
  rw [show Sheet.mk s.header s.rows = s from rfl]
  rw [wbSet_find_self wb "Requisitions" s hf]

theorem upgradeSchemaLand_noop (wb : Workbook) (s : Sheet)
    (hf : wbFind wb "Landings" = some s)
    (hc : ∀ c ∈ LAND_NEW_COLS, Value.str c ∈ s.header) :
    upgradeSchemaLand wb = (wb, false) := by
  have hcols : upgradeCols s.header LAND_NEW_COLS = (s.header, false) :=
    upgradeCols_foldl_noop LAND_NEW_COLS (s.header, false) hc
  unfold upgradeSchemaLand
  rw [hf]
  simp only [Option.getD_some, hcols]
  rw [show Sheet.mk s.header s.rows = s from rfl]
  rw [wbSet_find_self wb "Landings" s hf]

theorem upgradeSchema_ensured (wb : Workbook) :
    (∀ td ∈ SHEETS, ∃ s, wbFind (upgradeSchema wb).fst td.fst = some s ∧
      sheetBlank s = false) ∧
    (∃ sR, wbFind (upgradeSchema wb).fst "Requisitions" = some sR ∧ sheetBlank sR = false ∧
      ∀ c ∈ REQ_NEW_COLS, Value.str c ∈ sR.header) ∧
    (∃ sL, wbFind (upgradeSchema wb).fst "Landings" = some sL ∧ sheetBlank sL = false ∧
      ∀ c ∈ LAND_NEW_COLS, Value.str c ∈ sL.header) := by
  have hA := ensure_foldl_establish SHEETS (wb, false) (by decide) (by decide)
  have hmemR : ∃ s, wbFind (SHEETS.foldl ensureSheetsStep (wb, false)).fst "Requisitions" =
      some s ∧ sheetBlank s = false := hA (SHEETS.get ⟨2, by decide⟩) (by decide)
  obtain ⟨sR0, hfR, hbR⟩ := hmemR
  have hmemL : ∃ s, wbFind (SHEETS.foldl ensureSheetsStep (wb, false)).fst "Landings" =
      some s ∧ sheetBlank s = false := hA (SHEETS.get ⟨3, by decide⟩) (by decide)
  obtain ⟨sL0, hfL, hbL⟩ := hmemL
  obtain ⟨⟨sR1, hR1a, hR1b, hR1c⟩, hRpres⟩ :=
    upgradeSchemaReq_found (SHEETS.foldl ensureSheetsStep (wb, false)).fst sR0 hfR hbR
  have hfL2 : wbFind (upgradeSchemaReq
      (SHEETS.foldl ensureSheetsStep (wb, false)).fst).fst "Landings" = some sL0 := by
    rw [hRpres "Landings" (by decide)]
    exact hfL
  obtain ⟨⟨sL1, hL1a, hL1b, hL1c⟩, hLpres⟩ :=
    upgradeSchemaLand_found (upgradeSchemaReq
      (SHEETS.foldl ensureSheetsStep (wb, false)).fst).fst sL0 hfL2 hbL
  have hfinal : (upgradeSchema wb).fst = (upgradeSchemaLand (upgradeSchemaReq
      (SHEETS.foldl ensureSheetsStep (wb, false)).fst).fst).fst := rfl
  refine ⟨?_, ⟨sR1, ?_, hR1b, hR1c⟩, ⟨sL1, ?_, hL1b, hL1c⟩⟩
  · intro td htd
    by_cases hR : td.fst = "Requisitions"
    · rw [hfinal, hR]
      rw [hLpres "Requisitions" (by decide)]
      exact ⟨sR1, hR1a, hR1b⟩
    · by_cases hL : td.fst = "Landings"
      · rw [hfinal, hL]
        exact ⟨sL1, hL1a, hL1b⟩
      · rw [hfinal, hLpres td.fst hL, hRpres td.fst hR]
        exact hA td htd
  · rw [hfinal, hLpres "Requisitions" (by decide)]
    exact hR1a
  · rw [hfinal]
    exact hL1a

theorem upgradeSchema_noop (w : Workbook)
    (hA : ∀ td ∈ SHEETS, ∃ s, wbFind w td.fst = some s ∧ sheetBlank s = false)
    (sR : Sheet) (hR1 : wbFind w "Requisitions" = some sR)
    (hR3 : ∀ c ∈ REQ_NEW_COLS, Value.str c ∈ sR.header)
    (sL : Sheet) (hL1 : wbFind w "Landings" = some sL)
    (hL3 : ∀ c ∈ LAND_NEW_COLS, Value.str c ∈ sL.header) :
    upgradeSchema w = (w, false) := by
  have hfold : SHEETS.foldl ensureSheetsStep (w, false) = (w, false) :=
    ensure_foldl_noop SHEETS (w, false) hA
  have hreq : upgradeSchemaReq w = (w, false) := upgradeSchemaReq_noop w sR hR1 hR3
  have hland : upgradeSchemaLand w = (w, false) := upgradeSchemaLand_noop w sL hL1 hL3
  unfold upgradeSchema
  simp [hfold, hreq, hland]

theorem upgradeSchema_idem (wb : Workbook) :
    upgradeSchema (upgradeSchema wb).fst = ((upgradeSchema wb).fst, false) := by
  obtain ⟨hA, ⟨sR, hR1, hR2, hR3⟩, ⟨sL, hL1, hL2, hL3⟩⟩ := upgradeSchema_ensured wb
  exact upgradeSchema_noop (upgradeSchema wb).fst hA sR hR1 hR3 sL hL1 hL3

/-- Claim C8 counterexample: running ensure-workbook a second time on the
workbook produced by a first run still performs a file save (the save count
of the second run is 1, not 0), because the source saves unconditionally
after the upgrade; this contradicts the claim that the second run performs
no file rewrite. -/
theorem C8_counterexample :
    (ensureWorkbook "hash" (some (ensureWorkbook "hash" Option.none).fst)).snd = 1 := by
  decide

/-- Claim C8 as amended: ensure-workbook run twice is idempotent on the
CONTENTS and loses no data (the workbook after the second run equals the
workbook after the first, and the upgrade of the second run reports no
change), but the second run nevertheless rewrites the file exactly once,
through the unconditional save at the end of ensure-workbook. -/
theorem C8_amended_idempotent_content_one_save (adminHash : String) (file : Option Workbook) :
    ensureWorkbook adminHash (some (ensureWorkbook adminHash file).fst) =
      ((ensureWorkbook adminHash file).fst, 1) := by
  have key : ∀ wb0 : Workbook, ensureWorkbook adminHash (some (upgradeSchema wb0).fst) =
      ((upgradeSchema wb0).fst, 1) := by
    intro wb0
    show ((upgradeSchema (upgradeSchema wb0).fst).fst,
      (if (upgradeSchema (upgradeSchema wb0).fst).snd then 1 else 0) + 1) =
      ((upgradeSchema wb0).fst, 1)
    rw [upgradeSchema_idem wb0]
    rfl
  cases file with
  | some wb => exact key wb
  | none =>
    exact key (("Users", Sheet.mk (["username", "password_hash", "role"].map Value.str)
        [[Value.str "admin", Value.str adminHash, Value.str "admin"]]) ::
      ["Directory", "Requisitions", "Landings", "Categories", "Vessels"].map
        (fun t => (t, Sheet.mk ((sheetHeaders t).map Value.str) [])))

/-- The module-level FX cache: the fetch timestamp and the cached rates
dict (base USD). -/
structure FxCache where
  timestamp : ℚ
  rates : List (String × ℚ)
deriving DecidableEq

/-- Python dict .get(k) on a rates mapping. -/
def ratesGet (d : List (String × ℚ)) (k : String) : Option ℚ :=
  match d.find? (fun p => p.fst == k) with
  | some p => some p.snd
  | Option.none => Option.none

/-- Python dict assignment d[k] = v: overwrite the existing entry in place,
else append the new pair at the end. -/
def ratesSet (d : List (String × ℚ)) (k : String) (v : ℚ) : List (String × ℚ) :=
  match d with
  | [] => [(k, v)]
  | (k2, v2) :: rest => if k2 == k then (k2, v) :: rest else (k2, v2) :: ratesSet rest k v

/-- The failure fallback of get-fx-rates: with no cached rates at all, seed
and return the one-entry map USD → 1.0; otherwise return the cache
unchanged (and untouched). -/
def fxFailurePath (cache : FxCache) (now : ℚ) : List (String × ℚ) × FxCache :=
  if cache.rates = [] then ([("USD", 1)], FxCache.mk now [("USD", 1)])
  else (cache.rates, cache)

/-- get-fx-rates of the source, with the module cache, the clock and the
outcome of the network fetch passed in explicitly and the updated cache
returned.  fetched = some rs models a request whose JSON carried the rates
object rs; Option.none models every raised failure (network error, bad
status, malformed payload, timeout); an empty rates object raises inside
the try block and lands in the same failure path.  requestsAvailable
models whether the requests library imported; the TTL is 3600 seconds as
in the source. -/
def getFxRates (cache : FxCache) (now : ℚ) (requestsAvailable : Bool)
    (fetched : Option (List (String × ℚ))) : List (String × ℚ) × FxCache :=
  if cache.rates ≠ [] ∧ now - cache.timestamp < 3600 then (cache.rates, cache)
  else if ¬ requestsAvailable then ([("USD", 1)], FxCache.mk now [("USD", 1)])
  else
    match fetched with
    | some data =>
      if data = [] then fxFailurePath cache now
      else (ratesSet data "USD" 1, FxCache.mk now (ratesSet data "USD" 1))
    | Option.none => fxFailurePath cache now

/-- The static approximate fallback table of the source (1 unit of currency
to this many USD). -/
def STATIC_CURRENCY_TO_USD : List (String × ℚ) :=
  [("USD", 1), ("EUR", 108 / 100), ("AED", 27 / 100), ("GBP", 125 / 100),
   ("LBP", 11 / 1000000), ("SAR", 27 / 100), ("QAR", 27 / 100), ("KWD", 325 / 100),
   ("OMR", 26 / 10), ("CHF", 110 / 100)]

/-- The amount argument of convert-to-usd as it arrives from JSON or a
cell: None, a number (modelled as a rational), or a string. -/
inductive PyVal where
  | none
  | num (q : ℚ)
  | str (s : String)
deriving DecidableEq

/-- Decimal value of a digit character list. -/
def digitsVal (l : List Char) : ℕ := l.foldl (fun n c => n * 10 + (c.toNat - 48)) 0

/-- Strip leading and trailing blanks (float() ignores surrounding
whitespace). -/
def stripSpaces (l : List Char) : List Char :=
  ((l.dropWhile (fun c => c == ' ')).reverse.dropWhile (fun c => c == ' ')).reverse

/-- Split a character list on the dot separator. -/
def splitOnDot (l : List Char) : List (List Char) :=
  match l with
  | [] => [[]]
  | c :: rest =>
    let r := splitOnDot rest
    if c == '.' then [] :: r
    else
      match r with
      | [] => [[c]]
      | h :: t => (c :: h) :: t

/-- Simplified Python float() string parsing: optional sign, integer
digits, optional fractional digits after one dot, with at least one digit
overall; Option.none for everything else (the raised ValueError).
Exponents and the inf/nan spellings are outside the claims and are not
modelled. -/
def parseFloatQ (s : String) : Option ℚ :=
  let t := stripSpaces s.data
  let su : ℚ × List Char :=
    match t with
    | c :: rest => if c == '-' then (-1, rest) else if c == '+' then (1, rest) else (1, t)
    | [] => (1, [])
  match splitOnDot su.snd with
  | [a] =>
    if !a.isEmpty && a.all Char.isDigit then some (su.fst * (digitsVal a : ℚ))
    else Option.none
  | [a, b] =>
    if (!a.isEmpty || !b.isEmpty) && a.all Char.isDigit && b.all Char.isDigit then
      some (su.fst * ((digitsVal a : ℚ) + (digitsVal b : ℚ) / (10 : ℚ) ^ b.length))
    else Option.none
  | _ => Option.none

/-- Python float() on the convert amount: None raises TypeError, a number
is itself, a string is parsed as a float literal; Option.none models the
raised TypeError/ValueError caught by the code. -/
def pyFloat : PyVal → Option ℚ
  | PyVal.none => Option.none
  | PyVal.num q => some q
  | PyVal.str s => parseFloatQ s

/-- (currency or "USD").upper() of the source: None and the empty string
fall back to USD and the result is uppercased. -/
def normCurrency (currency : Option String) : String :=
  match currency with
  | Option.none => "USD"
  | some s => if s = "" then "USD" else String.mk (s.data.map Char.toUpper)

/-- The static-table fallback of convert-to-usd: amount times the
approximate rate when the currency is present, the amount unconverted as
the last resort. -/
def staticFallback (amt : ℚ) (cur : String) : ℚ :=
  match ratesGet STATIC_CURRENCY_TO_USD cur with
  | some st => amt * st
  | Option.none => amt

/-- convert-to-usd of the source, with the rates dict returned by
get-fx-rates passed in explicitly.  A non-parseable amount returns 0.0; a
normalized currency of USD is the identity; a truthy (nonzero) live rate r
divides (the API convention is 1 USD = r units of currency, so 1 unit of
currency = 1/r USD); otherwise the static table multiplies; otherwise the
amount is returned unconverted. -/
def convert_to_usd (rates : List (String × ℚ)) (amount : PyVal)
    (currency : Option String) : ℚ :=
  match pyFloat amount with
  | Option.none => 0
  | some amt =>
    if normCurrency currency = "USD" then amt
    else
      match ratesGet rates (normCurrency currency) with
      | some r => if r ≠ 0 then amt / r else staticFallback amt (normCurrency currency)
      | Option.none => staticFallback amt (normCurrency currency)

/-- Claim C4 counterexample: with no cache at all and a failing fetch,
get-fx-rates returns the one-entry map USD → 1.0 and NOT the built-in
static table of approximate rates: the returned map has no EUR entry while
the static table does. -/
theorem C4_counterexample :
    (getFxRates (FxCache.mk 0 []) 100000 true Option.none).fst = [("USD", 1)] ∧
    ratesGet (getFxRates (FxCache.mk 0 []) 100000 true Option.none).fst "EUR" =
      Option.none ∧
    ratesGet STATIC_CURRENCY_TO_USD "EUR" = some (108 / 100) := by
  refine ⟨by decide, by decide, rfl⟩

theorem getFxRates_failure_eq (cache : FxCache) (now : ℚ)
    (fetched : Option (List (String × ℚ)))
    (hstale : ¬(cache.rates ≠ [] ∧ now - cache.timestamp < 3600))
    (hfail : fetched = Option.none ∨ fetched = some []) :
    getFxRates cache now true fetched = fxFailurePath cache now := by
  unfold getFxRates
  rw [if_neg hstale]
  rw [if_neg (by simp)]
  rcases hfail with hf | hf
  · rw [hf]
  · rw [hf]
    show (if ([] : List (String × ℚ)) = [] then fxFailurePath cache now
      else (ratesSet [] "USD" 1, FxCache.mk now (ratesSet [] "USD" 1))) =
      fxFailurePath cache now
    rw [if_pos rfl]

/-- Claim C4 as amended: a cached rate set younger than the TTL is returned
as is; on any fetch failure (error or empty payload) the last cached rate
set is returned unchanged regardless of its age — never the static table
while a cache exists; with no cache at all the failure path returns the
one-entry map USD → 1.0 (the static approximate table is used only inside
convert-to-usd, not here).  requestsAvailable is fixed to true: the import
fallback is a separate code path outside this claim. -/
theorem C4_amended_cache_over_static (cache : FxCache) (now : ℚ)
    (fetched : Option (List (String × ℚ))) :
    (cache.rates ≠ [] → now - cache.timestamp < 3600 →
      getFxRates cache now true fetched = (cache.rates, cache)) ∧
    (cache.rates ≠ [] → (fetched = Option.none ∨ fetched = some []) →
      getFxRates cache now true fetched = (cache.rates, cache)) ∧
    (cache.rates = [] → (fetched = Option.none ∨ fetched = some []) →
      (getFxRates cache now true fetched).fst = [("USD", 1)]) := by
  refine ⟨?_, ?_, ?_⟩
  · intro h1 h2
    unfold getFxRates
    rw [if_pos ⟨h1, h2⟩]
  · intro h1 hfail
    by_cases hfresh : now - cache.timestamp < 3600
    · unfold getFxRates
      rw [if_pos ⟨h1, hfresh⟩]
    · rw [getFxRates_failure_eq cache now fetched (by intro hc; exact hfresh hc.2) hfail]
      unfold fxFailurePath
      rw [if_neg h1]
  · intro h1 hfail
    rw [getFxRates_failure_eq cache now fetched (by intro hc; exact hc.1 h1) hfail]
    unfold fxFailurePath
    rw [if_pos h1]

/-- Witness for the amended C4 at a concrete cache holding one EUR rate:
fresh cache returned as is, stale cache returned unchanged on a failed
fetch, and the empty cache yields the USD-only map. -/
theorem C4_amended_cache_over_static_witness :
    getFxRates (FxCache.mk 0 [("EUR", 9 / 10)]) 1000 true (some [("GBP", 2)]) =
      ([("EUR", 9 / 10)], FxCache.mk 0 [("EUR", 9 / 10)]) ∧
    getFxRates (FxCache.mk 0 [("EUR", 9 / 10)]) 100000 true Option.none =
      ([("EUR", 9 / 10)], FxCache.mk 0 [("EUR", 9 / 10)]) ∧
    (getFxRates (FxCache.mk 0 []) 100 true (some [])).fst = [("USD", 1)] :=
  ⟨(C4_amended_cache_over_static (FxCache.mk 0 [("EUR", 9 / 10)]) 1000
      (some [("GBP", 2)])).1 (by simp) (by norm_num),
   (C4_amended_cache_over_static (FxCache.mk 0 [("EUR", 9 / 10)]) 100000
      Option.none).2.1 (by simp) (Or.inl rfl),
   (C4_amended_cache_over_static (FxCache.mk 0 []) 100
      (some [])).2.2 rfl (Or.inr rfl)⟩

/-- Claim C5: conversion into the base currency.  For a parseable amount q:
identity when the normalized source currency is the base USD; division by a
nonzero live rate r when one exists (1 USD = r units, so q units of
currency are q / r USD); and the amount unchanged when the currency is
absent from both the live and the static tables. -/
theorem C5_convert_semantics (rates : List (String × ℚ)) (amount : PyVal)
    (currency : Option String) (q : ℚ) (hq : pyFloat amount = some q) :
    (normCurrency currency = "USD" → convert_to_usd rates amount currency = q) ∧
    (∀ r, normCurrency currency ≠ "USD" →
      ratesGet rates (normCurrency currency) = some r → r ≠ 0 →
      convert_to_usd rates amount currency = q / r) ∧
    (normCurrency currency ≠ "USD" →
      ratesGet rates (normCurrency currency) = Option.none →
      ratesGet STATIC_CURRENCY_TO_USD (normCurrency currency) = Option.none →
      convert_to_usd rates amount currency = q) := by
  refine ⟨?_, ?_, ?_⟩
  · intro h
    unfold convert_to_usd
    rw [hq]
    show (if normCurrency currency = "USD" then q
      else match ratesGet rates (normCurrency currency) with
        | some r => if r ≠ 0 then q / r else staticFallback q (normCurrency currency)
        | Option.none => staticFallback q (normCurrency currency)) = q
    rw [if_pos h]
  · intro r h1 h2 h3
    unfold convert_to_usd
    rw [hq]
    show (if normCurrency currency = "USD" then q
      else match ratesGet rates (normCurrency currency) with
        | some r => if r ≠ 0 then q / r else staticFallback q (normCurrency currency)
        | Option.none => staticFallback q (normCurrency currency)) = q / r
    rw [if_neg h1, h2]
    show (if r ≠ 0 then q / r else staticFallback q (normCurrency currency)) = q / r
    rw [if_pos h3]
  · intro h1 h2 h3
    unfold convert_to_usd
    rw [hq]
    show (if normCurrency currency = "USD" then q
      else match ratesGet rates (normCurrency currency) with
        | some r => if r ≠ 0 then q / r else staticFallback q (normCurrency currency)
        | Option.none => staticFallback q (normCurrency currency)) = q
    rw [if_neg h1, h2]
    show staticFallback q (normCurrency currency) = q
    unfold staticFallback
    rw [h3]

/-- Witness for C5: 100 EUR at live rate 0.90 converts to 1000/9 ≈ 111.11
USD, a USD amount converts to itself, and an unknown currency passes the
amount through. -/
theorem C5_convert_semantics_witness :
    convert_to_usd [("EUR", 9 / 10)] (PyVal.num 100) (some "EUR") = 1000 / 9 ∧
    convert_to_usd [("EUR", 9 / 10)] (PyVal.num 100) (some "usd") = 100 ∧
    convert_to_usd [] (PyVal.num 100) (some "XXX") = 100 := by
  refine ⟨?_, ?_, ?_⟩
  · have h := (C5_convert_semantics [("EUR", 9 / 10)] (PyVal.num 100) (some "EUR") 100
      rfl).2.1 (9 / 10) (by decide) rfl (by norm_num)
    rw [h]
    norm_num
  · exact (C5_convert_semantics [("EUR", 9 / 10)] (PyVal.num 100) (some "usd") 100
      rfl).1 (by decide)
  · exact (C5_convert_semantics [] (PyVal.num 100) (some "XXX") 100
      rfl).2.2 (by decide) rfl (by decide)

/-- Claim C10: any amount that float() cannot parse (None, or a
non-numeric string) converts to 0.0 for every rate table and every
currency, rather than raising or returning the input unchanged. -/
theorem C10_unparseable_amount_zero (rates : List (String × ℚ)) (amount : PyVal)
    (currency : Option String) (h : pyFloat amount = Option.none) :
    convert_to_usd rates amount currency = 0 := by
  unfold convert_to_usd
  rw [h]

/-- Witness for C10: the None amount and the non-numeric string amount
"abc" both convert to 0 even with a live EUR rate present. -/
theorem C10_unparseable_amount_zero_witness :
    convert_to_usd [("EUR", 9 / 10)] PyVal.none (some "EUR") = 0 ∧
    convert_to_usd [("EUR", 9 / 10)] (PyVal.str "abc") (some "EUR") = 0 :=
  ⟨C10_unparseable_amount_zero [("EUR", 9 / 10)] PyVal.none (some "EUR") rfl,
   C10_unparseable_amount_zero [("EUR", 9 / 10)] (PyVal.str "abc") (some "EUR") (by decide)⟩

/-- Outcome of one attempt to save the workbook file. -/
inductive SaveOutcome where
  | success
  | transientFail
  | fatalFail
deriving DecidableEq

/-- The save path of the source: save-wb is a single wb.save call.  The
filesystem is modelled as the list of outcomes that successive attempts
would produce; the function consumes exactly one attempt and returns its
outcome together with the number of attempts made. -/
def saveWb (outcomes : List SaveOutcome) : SaveOutcome × ℕ :=
  (outcomes.headD SaveOutcome.fatalFail, 1)

/-- The retry behaviour claim C9 asserts of the save path, as a
proposition: whenever the first attempt fails transiently and some retry
within the claimed bound of five further attempts would succeed, the save
path ends in success instead of surfacing the failure. -/
def saveRetryClaim : Prop :=
  ∀ outcomes : List SaveOutcome,
    outcomes.headD SaveOutcome.fatalFail = SaveOutcome.transientFail →
    (∃ i, 1 ≤ i ∧ i ≤ 5 ∧ outcomes.getD i SaveOutcome.fatalFail = SaveOutcome.success) →
    (saveWb outcomes).fst = SaveOutcome.success

/-- Claim C9 counterexample: the save path has no retry loop.  With a
transient first failure and a second attempt that would succeed, the code
still surfaces the transient failure after exactly one attempt, refuting
the claimed retry-with-backoff behaviour. -/
theorem C9_counterexample :
    ¬ saveRetryClaim ∧
      saveWb [SaveOutcome.transientFail, SaveOutcome.success] =
        (SaveOutcome.transientFail, 1) := by
  constructor
  · intro h
    have hc := h [SaveOutcome.transientFail, SaveOutcome.success] rfl
      ⟨1, by decide, by decide, rfl⟩
    exact absurd hc (by decide)
  · rfl

/-- Claim C9 as amended: the save path makes exactly one attempt, and its
result depends only on that first attempt — any failure, transient or not,
propagates immediately; there is no retry and no backoff. -/
theorem C9_amended_single_attempt (o1 o2 : List SaveOutcome)
    (h : o1.headD SaveOutcome.fatalFail = o2.headD SaveOutcome.fatalFail) :
    saveWb o1 = saveWb o2 ∧ (saveWb o1).snd = 1 := by
  unfold saveWb
  rw [h]
  exact ⟨rfl, rfl⟩

/-- Witness for the amended C9: the presence of a would-be successful
second attempt changes nothing, and exactly one attempt is made. -/
theorem C9_amended_single_attempt_witness :
    saveWb [SaveOutcome.transientFail, SaveOutcome.success] =
      saveWb [SaveOutcome.transientFail] ∧
    (saveWb [SaveOutcome.transientFail, SaveOutcome.success]).snd = 1 :=
  C9_amended_single_attempt [SaveOutcome.transientFail, SaveOutcome.success]
    [SaveOutcome.transientFail] rfl

end AmtProcurement
